import Mathlib

/-!
Verification of the DS2438 1-Wire driver (`src/ds2438.c`).

The driver is embedded shallowly:

* machine bytes (`uint8_t`) are `Nat` values; wherever the C code truncates
  to 8 or 16 bits, the model applies `% 256` / `% 65536` explicitly;
* the 1-Wire bus, as seen by the ROM search, is the list of 64-bit device
  addresses present (`List Nat`); a bus read is the wired-AND of the
  responding devices' bits, exactly as the electrical protocol behaves;
* the hardware environment for the measurement path is an oracle `Env`
  providing the outcome of each successive reset and each successive byte
  read; the model threads explicit cursors through it and accumulates the
  trace of command bytes written;
* timing (`_delay_us` / `_delay_ms`) has no observable effect in this
  model and is dropped.
-/

namespace DS2438

/-! ## CRC-8 (`crc8`, built on avr-libc `_crc_ibutton_update`)

`_crc_ibutton_update` is avr-libc's documented Dallas/Maxim iButton CRC
update: xor in the data byte, then eight Galois LFSR steps with
polynomial `0x8C`.  `crc8` (ds2438.c lines 53-62) folds it over the data
with seed 0. -/

/-- One LFSR step of the iButton CRC:
`if (crc & 1) crc = (crc >> 1) ^ 0x8C; else crc >>= 1;`. -/
def lfsr_step (c : Nat) : Nat :=
  if c &&& 1 = 1 then (c >>> 1) ^^^ 0x8C else c >>> 1

/-- avr-libc `_crc_ibutton_update`: `crc = crc ^ data` then 8 LFSR steps. -/
def crc_ibutton_update (crc data : Nat) : Nat :=
  lfsr_step^[8] (crc ^^^ data)

/-- `crc8(data, len)` (ds2438.c lines 53-62): fold the update over the
bytes with seed 0.  The list argument carries exactly the `len` bytes the
C function reads. -/
def crc8 (data : List Nat) : Nat :=
  data.foldl crc_ibutton_update 0

/-- A byte sequence passes CRC-8 validation when its last byte equals the
CRC-8 of the preceding bytes.  This is the check made both by
`onewire_check_rom_crc` (bytes 0-6 against byte 7) and by
`ds2438_read_slave` (bytes 0-7 against byte 8). -/
def crc_check (s : List Nat) : Bool :=
  s.getLast? == some (crc8 s.dropLast)

/-- Flip bit `b` of byte `i` of a byte sequence. -/
def flipBit (s : List Nat) (i b : Nat) : List Nat :=
  s.set i ((s.getD i 0) ^^^ (1 <<< b))

/-! ## ROM search engine (`_search_next`, ds2438.c lines 206-298)

The bus holds a set of devices, each a 64-bit ROM address (a `Nat`,
bit `p` read via `Nat.testBit`).  During a pass the devices still
responding are those that matched every bit written so far.  A read slot
is a wired AND: the line reads 1 iff no responding device pulls it low.
-/

/-- Search state (ds2438.c lines 37-51): `lastZeroBranch` is an `int8_t`
(-1 = none), `done` the terminal flag, `address` the 8 `uint8_t` address
bytes, LSB first. -/
structure SearchState where
  lastZeroBranch : Int
  done : Bool
  address : List Nat
deriving DecidableEq, Repr

/-- What `_search_next` did at one bit position: whether the two reads
conflicted (`(0,0)`), and which bit value was chosen (written to the
address buffer and the bus). -/
structure SearchEvent where
  conflict : Bool
  chosen : Bool
deriving DecidableEq, Repr, Inhabited

/-- The two reads at bit position `p` (ds2438.c lines 233-235):
first the bit slot, then the complement slot.  The line reads 1 iff
every responding device leaves it high. -/
def busReading (resp : List Nat) (p : Nat) : Bool × Bool :=
  (resp.all fun d => d.testBit p, resp.all fun d => !d.testBit p)

/-- Conflict case `kConflict = 0b00`: both reads were low. -/
def stepConflict (resp : List Nat) (p : Nat) : Bool :=
  !(busReading resp p).1 && !(busReading resp p).2

/-- Resolution of an ambiguous bit (ds2438.c lines 245-259).  In the
replay branch the C code computes
`bitValue = state->address[byteIndex] & (1 << bitIndex)` — the masked
byte, not a 0/1 value. -/
def chooseBit (lzbPrev : Int) (addr : List Nat) (p : Nat) : Nat :=
  if (p : Int) = lzbPrev then 1
  else if (p : Int) < lzbPrev then (addr.getD (p / 8) 0) &&& (1 <<< (p % 8))
  else 0

/-- The `bitValue` chosen at position `p` (ds2438.c lines 237-266): the
agreed bit when the reads agree, the `chooseBit` resolution on a
conflict. -/
def stepBitValue (lzbPrev : Int) (addr resp : List Nat) (p : Nat) : Nat :=
  if stepConflict resp p then chooseBit lzbPrev addr p
  else if (busReading resp p).1 then 1 else 0

/-- Update of the pass-local last zero branch (ds2438.c lines 261-264):
overwritten with `p` whenever an ambiguous bit resolves to 0. -/
def stepLlzb (llzb : Int) (lzbPrev : Int) (addr resp : List Nat) (p : Nat) : Int :=
  if stepConflict resp p && stepBitValue lzbPrev addr resp p == 0 then (p : Int) else llzb

/-- The event record for position `p`. -/
def stepEvent (lzbPrev : Int) (addr resp : List Nat) (p : Nat) : SearchEvent :=
  ⟨stepConflict resp p, stepBitValue lzbPrev addr resp p != 0⟩

/-- Write the chosen bit into the address buffer (ds2438.c lines 273-278).
The bytes are `uint8_t`:
* `bitValue == 0`: `address[byteIndex] &= ~(1 << bitIndex)`; for a byte
  below 256 this is `&&& (0xFF ^^^ (1 <<< bitIndex))`;
* otherwise: `address[byteIndex] |= (bitValue << bitIndex)`, truncated to
  8 bits by the `uint8_t` compound assignment — hence the `% 256`.
  Note `bitValue` itself may be `1 <<< bitIndex` (replay branch), so the
  mask actually ORed is `1 <<< (2*bitIndex)`, not `1 <<< bitIndex`. -/
def writeAddrBit (addr : List Nat) (p : Nat) (bitValue : Nat) : List Nat :=
  if bitValue = 0 then
    addr.set (p / 8) ((addr.getD (p / 8) 0) &&& (0xFF ^^^ (1 <<< (p % 8))))
  else
    addr.set (p / 8) (((addr.getD (p / 8) 0) ||| (bitValue <<< (p % 8))) % 256)

/-- Writing the chosen bit on the bus (ds2438.c line 285): the devices
whose bit `p` differs from the written bit stop responding.
`onewire_write_bit` writes a 1 slot for any nonzero `bitValue`. -/
def respFilter (resp : List Nat) (p : Nat) (bitValue : Nat) : List Nat :=
  resp.filter fun d => d.testBit p == decide (bitValue ≠ 0)

/-- The 64-position loop of `_search_next` (ds2438.c lines 222-286),
recursing on the number of remaining positions; `p` is the current bit
position, `addr` the address buffer, `llzb` the pass-local last zero
branch, `resp` the devices still responding.  A `(1,1)` reading is a bus
fault: the C code returns `false` at once, with the address buffer left
as partially overwritten (`Except.error`).  On success it returns the
final buffer, the final `localLastZeroBranch`, and the per-position
events. -/
def searchLoop (lzbPrev : Int) :
    Nat → Nat → List Nat → Int → List Nat →
    Except (List Nat) (List Nat × Int × List SearchEvent)
  | 0, _, addr, llzb, _ => .ok (addr, llzb, [])
  | rem + 1, p, addr, llzb, resp =>
    if (busReading resp p).1 && (busReading resp p).2 then
      .error addr
    else
      match searchLoop lzbPrev rem (p + 1)
          (writeAddrBit addr p (stepBitValue lzbPrev addr resp p))
          (stepLlzb llzb lzbPrev addr resp p)
          (respFilter resp p (stepBitValue lzbPrev addr resp p)) with
      | .error a => .error a
      | .ok (aF, lF, evts) => .ok (aF, lF, stepEvent lzbPrev addr resp p :: evts)

/-- `_search_next` (ds2438.c lines 206-298): run the 64-bit pass from
position 0 with `localLastZeroBranch = -1`; on a bus fault return `false`
with the partially overwritten buffer; on success, if no zero branch was
recorded set `done`, else set `lastZeroBranch`, and return `true`. -/
def _search_next (devices : List Nat) (st : SearchState) : Bool × SearchState :=
  match searchLoop st.lastZeroBranch 64 0 st.address (-1) devices with
  | .error a => (false, { st with address := a })
  | .ok (aF, lF, _) =>
    if lF = -1 then (true, { st with address := aF, done := true })
    else (true, { st with address := aF, lastZeroBranch := lF })

/-- `_search_devices` (ds2438.c lines 300-314).  `presence` is the
outcome of `onewire_reset`; when it fails, or the state is already
`done`, the call fails without touching the state and without writing the
command byte.  The third component is the list of command bytes written
(`onewire_write` calls). -/
def _search_devices (command : Nat) (presence : Bool) (devices : List Nat)
    (st : SearchState) : Bool × SearchState × List Nat :=
  if st.done then (false, st, [])
  else if !presence then (false, st, [])
  else
    let r := _search_next devices st
    (r.1, r.2, [command])

/-- `onewire_search` (ds2438.c lines 316-320): search with the
Search ROM command `0xF0`. -/
def onewire_search (presence : Bool) (devices : List Nat) (st : SearchState) :
    Bool × SearchState × List Nat :=
  _search_devices 0xF0 presence devices st

/-- A freshly initialised search state (ds2438.c lines 330-333). -/
def onewire_search_init : SearchState :=
  ⟨-1, false, List.replicate 8 0⟩

/-- `onewire_check_rom_crc` (ds2438.c lines 322-326): byte 7 of the
address against the CRC-8 of bytes 0-6. -/
def onewire_check_rom_crc (address : List Nat) : Bool :=
  address.getD 7 0 == crc8 (address.take 7)

/-- The `while` loop of `ds2438_search` (ds2438.c lines 335-340), with
explicit fuel (the C loop has no a-priori bound; every terminating C
execution is reached at some fuel).  `i` is the C `uint8_t` code counter:
`buf[8 * i++]` wraps at 256, hence the `(i + 1) % 256` increment (the
capacity test `8 * (i + 1) <= len` promotes the current 8-bit value to
`int`, as here).  `codes` is the chronological list of 8-byte ROM codes
`memcpy`ed to the caller's buffer at offsets `8*i`, `ws` the command bytes
written.  The C condition evaluates `onewire_search` (mutating the state)
before the capacity test, exactly as here.  Whenever `len < 2048`, the
capacity test keeps `i + 1 ≤ 255`, the wrap never fires, and `codes` is
exactly the final buffer content. -/
def ds2438_search_loop (presence : Bool) (devices : List Nat) (len : Nat) :
    Nat → SearchState → Nat → List (List Nat) → List Nat →
    Nat × List (List Nat) × List Nat
  | 0, _, i, codes, ws => (i, codes, ws)
  | fuel + 1, st, i, codes, ws =>
    let r := onewire_search presence devices st
    if r.1 && decide (8 * (i + 1) ≤ len) then
      if onewire_check_rom_crc r.2.1.address then
        ds2438_search_loop presence devices len fuel r.2.1 ((i + 1) % 256)
          (codes ++ [r.2.1.address]) (ws ++ r.2.2)
      else
        ds2438_search_loop presence devices len fuel r.2.1 i codes (ws ++ r.2.2)
    else (i, codes, ws ++ r.2.2)

/-- `ds2438_search` (ds2438.c lines 328-341): fresh state, then the
enumeration loop.  Returns `*found`, the recorded ROM codes, and the
written command bytes. -/
def ds2438_search (presence : Bool) (devices : List Nat) (len fuel : Nat) :
    Nat × List (List Nat) × List Nat :=
  ds2438_search_loop presence devices len fuel onewire_search_init 0 [] []

/-- Bit `q` of the address buffer: bit `q % 8` of byte `q / 8`. -/
def bitOf (addr : List Nat) (q : Nat) : Bool :=
  (addr.getD (q / 8) 0).testBit (q % 8)

/-- An event where an ambiguous bit was resolved to 0. -/
def isConflictZero (e : SearchEvent) : Bool :=
  e.conflict && !e.chosen

/-- Index of the last conflict-resolved-to-zero event of a pass, if any. -/
def lastCZ : List SearchEvent → Option Nat
  | [] => none
  | e :: rest =>
    match lastCZ rest with
    | some k => some (k + 1)
    | none => if isConflictZero e then some 0 else none

/-- The per-position events of a full 64-bit pass (empty on a bus fault). -/
def passEvents (lzbPrev : Int) (addr : List Nat) (devices : List Nat) :
    List SearchEvent :=
  match searchLoop lzbPrev 64 0 addr (-1) devices with
  | .error _ => []
  | .ok (_, _, evts) => evts

/-- Iterated enumeration harness: `searchSeq presence devices n` is the
result of the `n`-th `onewire_search` call, each call reusing the state
mutated by the previous one, starting from a freshly initialised state
(`searchSeq _ _ 0` is the sentinel `(true, fresh state)`). -/
def searchSeq (presence : Bool) (devices : List Nat) : Nat → Bool × SearchState
  | 0 => (true, onewire_search_init)
  | n + 1 =>
    let r := onewire_search presence devices (searchSeq presence devices n).2
    (r.1, r.2.1)

/-! ## Device transaction layer and measurement orchestrator
(`ds2438_read_slave`, `ds2438_measure`, ds2438.c lines 343-449)

These functions talk to a single broadcast-addressed device, so the bus is
modelled as an oracle: `resets i` is the outcome of the `i`-th
`onewire_reset` call of the transaction (presence observed or not) and
`reads i` the byte returned by the `i`-th `onewire_read` call.  The model
threads explicit reset/read cursors and accumulates the trace of bytes
written with `onewire_write`. -/

/-- Oracle for the hardware's responses. -/
structure Env where
  resets : Nat → Bool
  reads : Nat → Nat

/-- Command bytes (ds2438.c lines 17-20). -/
def kConvertTCommand : Nat := 0x44

def kConvertVCommand : Nat := 0xB4

def kRecallPage : Nat := 0xB8

def kReadScatchPad : Nat := 0xBE

/-- Scratchpad data indexes (ds2438.c lines 23-27). -/
def kScratchPad_TLSB : Nat := 1

def kScratchPad_TMSB : Nat := 2

def kScratchPad_VLSB : Nat := 3

def kScratchPad_VMSB : Nat := 4

def kScratchPad_CRC : Nat := 8

/-- Special return values (ds2438.c lines 30-31). -/
def kDS2438_DeviceNotFound : Nat := 0xA800

def kDS2438_CrcCheckFailed : Nat := 0x5000

/-- The 9 scratchpad bytes delivered by `onewire_read` starting at read
cursor `n`; `onewire_read` always produces a byte (8 bit slots), hence
the `% 256`. -/
def readBuf (env : Env) (n : Nat) : List Nat :=
  (List.range 9).map fun i => env.reads (n + i) % 256

/-- `ds2438_read_slave` (ds2438.c lines 343-372), at reset cursor `r` and
read cursor `n`.  Returns the status code, the 9 scratchpad bytes when
they were read (`none` when a reset aborted the transaction before the
read), the advanced cursors, and the bytes written on the bus. -/
def ds2438_read_slave (env : Env) (r n page : Nat) :
    Nat × Option (List Nat) × Nat × Nat × List Nat :=
  if env.resets r = false then
    (kDS2438_DeviceNotFound, none, r + 1, n, [])
  else if env.resets (r + 1) = false then
    (kDS2438_DeviceNotFound, none, r + 2, n, [0xCC, kRecallPage, page])
  else
    if crc8 ((readBuf env n).take 8) != (readBuf env n).getD kScratchPad_CRC 0 then
      (kDS2438_CrcCheckFailed, some (readBuf env n), r + 2, n + 9,
        [0xCC, kRecallPage, page, 0xCC, kReadScatchPad, page])
    else
      (0, some (readBuf env n), r + 2, n + 9,
        [0xCC, kRecallPage, page, 0xCC, kReadScatchPad, page])

/-- The data determining the formatted output line
`sprintf(output, "TH;%0.3f;%0.3f\r\n", temperature, sensor_rh)`
(ds2438.c lines 441-448): the extracted integer temperature byte, the
fractional field `(TLSB >> 3) * 32` (in thousandths of a degree), and the
two raw voltages.  The float arithmetic and decimal rendering of the two
numbers are outside the model; the line is represented by the values it
is computed from. -/
structure MeasureLine where
  temp_integer : Nat
  temp_frac : Nat
  vad : Nat
  vdd : Nat
deriving DecidableEq, Repr

/-- `ds2438_measure` (ds2438.c lines 374-449).  Returns the boolean
result, the output line (`none` exactly when nothing was written to the
caller's buffer), and the trace of command bytes written on the bus.
`vad`/`vdd` are `uint16_t`, hence the `% 65536`. -/
def ds2438_measure (env : Env) : Bool × Option MeasureLine × List Nat :=
  if env.resets 0 = false then (false, none, [])
  else
    -- 0xCC then "Switch to VAD" configuration write 0x4E 0x00 0x00
    let ws1 : List Nat := [0xCC, 0x4E, 0x00, 0x00]
    if env.resets 1 = false then (false, none, ws1)
    else
      let ws2 := ws1 ++ [0xCC, kConvertTCommand]
      if env.resets 2 = false then (false, none, ws2)
      else
        let ws3 := ws2 ++ [0xCC, kConvertVCommand]
        let s1 := ds2438_read_slave env 3 0 0
        let ws4 := ws3 ++ s1.2.2.2.2
        if s1.1 = kDS2438_CrcCheckFailed then (false, none, ws4)
        else if s1.1 = kDS2438_DeviceNotFound then (false, none, ws4)
        else
          let buf1 := s1.2.1.getD []
          let vad := (((buf1.getD kScratchPad_VMSB 0) <<< 8 |||
            buf1.getD kScratchPad_VLSB 0) * 10) % 65536
          if env.resets s1.2.2.1 = false then (false, none, ws4)
          else
            -- 0xCC then "Switch to VDD" configuration write 0x4E 0x00 0x08
            let ws5 := ws4 ++ [0xCC, 0x4E, 0x00, 0x08]
            if env.resets (s1.2.2.1 + 1) = false then (false, none, ws5)
            else
              let ws6 := ws5 ++ [0xCC, kConvertVCommand]
              if env.resets (s1.2.2.1 + 2) = false then (false, none, ws6)
              else
                let s2 := ds2438_read_slave env (s1.2.2.1 + 3) s1.2.2.2.1 0
                let ws7 := ws6 ++ s2.2.2.2.2
                if s2.1 = kDS2438_CrcCheckFailed then (false, none, ws7)
                else if s2.1 = kDS2438_DeviceNotFound then (false, none, ws7)
                else
                  let buf2 := s2.2.1.getD []
                  let vdd := (((buf2.getD kScratchPad_VMSB 0) <<< 8 |||
                    buf2.getD kScratchPad_VLSB 0) * 10) % 65536
                  (true,
                    some ⟨buf2.getD kScratchPad_TMSB 0,
                      (buf2.getD kScratchPad_TLSB 0 >>> 3) * 32, vad, vdd⟩,
                    ws7)

/-- Modelled from the spec: the spec reads the scratchpad temperature MSB
as a signed integer degrees-Celsius part ("temperature (signed integer °C
part ...)"), i.e. as a two's-complement byte. -/
def specSignedTemp (b : Nat) : Int :=
  if b < 128 then (b : Int) else (b : Int) - 256

/-- Concrete oracle: every reset sees a presence pulse, every read
returns 0 (an all-zero scratchpad frame, whose CRC byte 0 is valid). -/
def envAllZero : Env :=
  ⟨fun _ => true, fun _ => 0⟩

/-- Concrete oracle: no reset ever observes a presence pulse. -/
def envNoPresence : Env :=
  ⟨fun _ => false, fun _ => 0⟩

/-- Concrete oracle for the signed-temperature scenario: presence always
observed; the first scratchpad frame is all zero (valid CRC), the second
frame is `[0x00, 0x00, 0xFF, 0, 0, 0, 0, 0, 0x56]` — temperature MSB
`0xFF`, i.e. -1 °C in the device's two's-complement encoding, with its
correct CRC byte `0x56`. -/
def envNegTemp : Env :=
  ⟨fun _ => true,
   fun i => ([0, 0, 0, 0, 0, 0, 0, 0, 0,
              0, 0x00, 0xFF, 0, 0, 0, 0, 0, 0x56] : List Nat).getD i 0⟩

end DS2438

/-! ## CRC-8 lemmas

The iButton CRC update is linear over GF(2): one LFSR step distributes
over xor, hence so do its iterates and the fold over a byte list.  A
nonzero difference below 256 is preserved by every step, which gives the
single-bit error-detection property. -/

namespace DS2438

lemma shiftRight_one_xor (x y : Nat) : (x ^^^ y) >>> 1 = (x >>> 1) ^^^ (y >>> 1) := by
  refine Nat.eq_of_testBit_eq fun i => ?_
  simp [Nat.testBit_shiftRight, Nat.testBit_xor]

lemma and_one_xor (x y : Nat) : (x ^^^ y) &&& 1 = (x &&& 1) ^^^ (y &&& 1) := by
  refine Nat.eq_of_testBit_eq fun i => ?_
  simp only [Nat.testBit_and, Nat.testBit_xor]
  cases hx : x.testBit i <;> cases hy : y.testBit i <;> cases h1 : Nat.testBit 1 i <;> rfl

lemma and_one_cases (x : Nat) : x &&& 1 = 0 ∨ x &&& 1 = 1 := by
  rw [Nat.and_one_is_mod]
  omega

lemma xor_swap_const (a b c : Nat) : (a ^^^ b) ^^^ c = (a ^^^ c) ^^^ b := by
  rw [Nat.xor_assoc, Nat.xor_comm b c, ← Nat.xor_assoc]

lemma lfsr_step_linear (x y : Nat) :
    lfsr_step (x ^^^ y) = lfsr_step x ^^^ lfsr_step y := by
  unfold lfsr_step
  rw [and_one_xor, shiftRight_one_xor]
  rcases and_one_cases x with hx | hx <;> rcases and_one_cases y with hy | hy <;>
      rw [hx, hy] <;> norm_num
  · -- x even, y odd
    rw [Nat.xor_assoc]
  · -- x odd, y even
    rw [xor_swap_const]
  · -- x odd, y odd: the two xors with the polynomial cancel
    rw [xor_swap_const (x >>> 1) 140 (y >>> 1 ^^^ 140), Nat.xor_assoc (x >>> 1),
      Nat.xor_assoc (y >>> 1), Nat.xor_self, Nat.xor_zero]

lemma lfsr_iter_linear (n x y : Nat) :
    lfsr_step^[n] (x ^^^ y) = lfsr_step^[n] x ^^^ lfsr_step^[n] y := by
  induction n generalizing x y with
  | zero => simp
  | succ n ih =>
    rw [Function.iterate_succ_apply, Function.iterate_succ_apply,
      Function.iterate_succ_apply, lfsr_step_linear, ih]

lemma lfsr_step_lt (d : Nat) (hd : d < 256) : lfsr_step d < 256 := by
  unfold lfsr_step
  have h1 : d >>> 1 < 128 := by
    rw [Nat.shiftRight_eq_div_pow]
    omega
  split
  · exact Nat.xor_lt_two_pow (n := 8) (by omega) (by norm_num)
  · omega

lemma lfsr_step_ne_zero (d : Nat) (hd : d < 256) (h0 : d ≠ 0) : lfsr_step d ≠ 0 := by
  unfold lfsr_step
  have hdiv : d >>> 1 = d / 2 := by rw [Nat.shiftRight_eq_div_pow]
  have hmod : d &&& 1 = d % 2 := Nat.and_one_is_mod d
  by_cases h : d &&& 1 = 1
  · rw [if_pos h]
    intro hc
    rw [Nat.xor_eq_zero, hdiv] at hc
    omega
  · rw [if_neg h, hdiv]
    rw [hmod] at h
    omega

lemma lfsr_iter_lt_ne_zero (n d : Nat) (hd : d < 256) (h0 : d ≠ 0) :
    lfsr_step^[n] d < 256 ∧ lfsr_step^[n] d ≠ 0 := by
  induction n with
  | zero => simpa using ⟨hd, h0⟩
  | succ n ih =>
    rw [Function.iterate_succ_apply']
    exact ⟨lfsr_step_lt _ ih.1, lfsr_step_ne_zero _ ih.1 ih.2⟩

lemma crc_update_xor (a d x : Nat) :
    crc_ibutton_update (a ^^^ d) x = crc_ibutton_update a x ^^^ lfsr_step^[8] d := by
  unfold crc_ibutton_update
  rw [xor_swap_const, lfsr_iter_linear]

lemma foldl_update_xor (v : List Nat) (a d : Nat) :
    v.foldl crc_ibutton_update (a ^^^ d)
      = v.foldl crc_ibutton_update a ^^^ lfsr_step^[8 * v.length] d := by
  induction v generalizing a d with
  | nil => simp
  | cons x v ih =>
    simp only [List.foldl_cons, List.length_cons]
    rw [crc_update_xor, ih]
    have : 8 * (v.length + 1) = 8 * v.length + 8 := by ring
    rw [this, Function.iterate_add_apply]

lemma foldl_update_xor_ne (v : List Nat) (a d : Nat) (hd : d < 256) (h0 : d ≠ 0) :
    v.foldl crc_ibutton_update (a ^^^ d) ≠ v.foldl crc_ibutton_update a := by
  rw [foldl_update_xor]
  intro hc
  have hne := (lfsr_iter_lt_ne_zero (8 * v.length) d hd h0).2
  apply hne
  have h3 : lfsr_step^[8 * v.length] d
      = v.foldl crc_ibutton_update a ^^^
        (v.foldl crc_ibutton_update a ^^^ lfsr_step^[8 * v.length] d) := by
    rw [← Nat.xor_assoc, Nat.xor_self, Nat.zero_xor]
  rw [hc, Nat.xor_self] at h3
  exact h3

lemma getD_append_lt {l₁ l₂ : List Nat} {i : Nat} (h : i < l₁.length) :
    (l₁ ++ l₂).getD i 0 = l₁.getD i 0 := by
  induction l₁ generalizing i with
  | nil => simp at h
  | cons x l ih =>
    cases i with
    | zero => rfl
    | succ i => simpa using ih (by simpa using h)

lemma getD_append_len {l : List Nat} {c : Nat} :
    (l ++ [c]).getD l.length 0 = c := by
  induction l with
  | nil => rfl
  | cons x l ih => simp [ih]

lemma set_append_lt {l₁ l₂ : List Nat} {i v : Nat} (h : i < l₁.length) :
    (l₁ ++ l₂).set i v = l₁.set i v ++ l₂ := by
  induction l₁ generalizing i with
  | nil => simp at h
  | cons x l ih =>
    cases i with
    | zero => rfl
    | succ i => simpa using ih (by simpa using h)

lemma set_append_len {l : List Nat} {c v : Nat} :
    (l ++ [c]).set l.length v = l ++ [v] := by
  induction l with
  | nil => rfl
  | cons x l ih => simp [ih]

lemma crc8_set_ne (data : List Nat) (i a e : Nat) (hi : i < data.length)
    (h0 : e ≠ 0) (he : e < 256) :
    (data.set i (data.getD i 0 ^^^ e)).foldl crc_ibutton_update a
      ≠ data.foldl crc_ibutton_update a := by
  induction data generalizing i a with
  | nil => simp at hi
  | cons x rest ih =>
    cases i with
    | zero =>
      simp only [List.set_cons_zero, List.getD_cons_zero, List.foldl_cons]
      have hupd : crc_ibutton_update a (x ^^^ e)
          = crc_ibutton_update a x ^^^ lfsr_step^[8] e := by
        unfold crc_ibutton_update
        rw [← Nat.xor_assoc, lfsr_iter_linear]
      rw [hupd]
      exact foldl_update_xor_ne rest _ _ (lfsr_iter_lt_ne_zero 8 e he h0).1
        (lfsr_iter_lt_ne_zero 8 e he h0).2
    | succ i =>
      simp only [List.set_cons_succ, List.getD_cons_succ, List.foldl_cons]
      exact ih i (crc_ibutton_update a x) (by simpa using hi)

lemma xor_ne_self (c e : Nat) (h0 : e ≠ 0) : c ^^^ e ≠ c := by
  intro hc
  apply h0
  have h3 : e = c ^^^ (c ^^^ e) := by rw [← Nat.xor_assoc, Nat.xor_self, Nat.zero_xor]
  rw [hc, Nat.xor_self] at h3
  exact h3

end DS2438

/-! ## ROM search engine lemmas -/

namespace DS2438

lemma testBit_clearBit (b i j : Nat) (_hi : i < 8) (hj : j < 8) :
    (b &&& (0xFF ^^^ (1 <<< i))).testBit j = (decide (j ≠ i) && b.testBit j) := by
  have h255 : (0xFF : Nat) = 2 ^ 8 - 1 := rfl
  rw [Nat.testBit_and, Nat.testBit_xor, Nat.one_shiftLeft, Nat.testBit_two_pow,
    h255, Nat.testBit_two_pow_sub_one]
  by_cases h : i = j
  · subst h
    simp [hj]
  · have h' : ¬j = i := fun hh => h hh.symm
    simp [hj, h, h']

lemma testBit_setBit (b i j : Nat) (hj : j < 8) :
    ((b ||| (1 <<< i)) % 256).testBit j = (decide (j = i) || b.testBit j) := by
  have h256 : (256 : Nat) = 2 ^ 8 := rfl
  rw [h256, Nat.testBit_mod_two_pow, Nat.testBit_or, Nat.one_shiftLeft,
    Nat.testBit_two_pow]
  by_cases h : i = j
  · subst h
    simp [hj]
  · have h' : ¬j = i := fun hh => h hh.symm
    simp [hj, h, h']

lemma and_shift_ne_zero_iff (b i : Nat) : b &&& (1 <<< i) ≠ 0 ↔ b.testBit i = true := by
  rw [Nat.one_shiftLeft, Nat.and_two_pow]
  cases h : b.testBit i
  · simp [h]
  · simp [h, (Nat.two_pow_pos i).ne']

lemma testBit_setBit_buggy (b i j : Nat) (hj : j < 8)
    (hne : b &&& (1 <<< i) ≠ 0) :
    ((b ||| ((b &&& (1 <<< i)) <<< i)) % 256).testBit j
      = (decide (j = 2 * i) || b.testBit j) := by
  have hb : b.testBit i = true := (and_shift_ne_zero_iff b i).1 hne
  have hmask : b &&& (1 <<< i) = 2 ^ i := by
    rw [Nat.one_shiftLeft, Nat.and_two_pow, hb]
    simp
  rw [hmask, Nat.shiftLeft_eq, ← pow_add]
  have h256 : (256 : Nat) = 2 ^ 8 := rfl
  rw [h256, Nat.testBit_mod_two_pow, Nat.testBit_or, Nat.testBit_two_pow]
  by_cases h : j = 2 * i
  · subst h
    have h2 : i + i = 2 * i := by omega
    simp [hj, h2]
  · have h2 : ¬(i + i = j) := by omega
    simp [hj, h, h2]

end DS2438
namespace DS2438

lemma getD_set_self (l : List Nat) (i v : Nat) (h : i < l.length) :
    (l.set i v).getD i 0 = v := by
  induction l generalizing i with
  | nil => simp at h
  | cons x t ih =>
    cases i with
    | zero => rfl
    | succ i => simpa using ih i (by simpa using h)

lemma getD_set_ne (l : List Nat) (i j v : Nat) (h : i ≠ j) :
    (l.set i v).getD j 0 = l.getD j 0 := by
  induction l generalizing i j with
  | nil => simp
  | cons x t ih =>
    cases i with
    | zero =>
      cases j with
      | zero => exact absurd rfl h
      | succ j => rfl
    | succ i =>
      cases j with
      | zero => rfl
      | succ j => simpa using ih i j (by omega)

lemma getD_lt (l : List Nat) (i : Nat) (h : ∀ x ∈ l, x < 256) : l.getD i 0 < 256 := by
  induction l generalizing i with
  | nil => simp
  | cons x t ih =>
    cases i with
    | zero => exact h x (by simp)
    | succ i => exact ih i fun y hy => h y (by simp [hy])

lemma writeAddrBit_length (addr : List Nat) (p bv : Nat) :
    (writeAddrBit addr p bv).length = addr.length := by
  unfold writeAddrBit
  split <;> simp

lemma writeAddrBit_bytes_lt (addr : List Nat) (p bv : Nat)
    (h : ∀ x ∈ addr, x < 256) : ∀ x ∈ writeAddrBit addr p bv, x < 256 := by
  unfold writeAddrBit
  split <;> intro x hx <;> rcases List.mem_or_eq_of_mem_set hx with h1 | h1
  · exact h x h1
  · subst h1
    exact lt_of_le_of_lt Nat.and_le_left (getD_lt addr _ h)
  · exact h x h1
  · subst h1
    exact Nat.mod_lt _ (by norm_num)

lemma stepBitValue_cases (lzbPrev : Int) (addr resp : List Nat) (p : Nat) :
    stepBitValue lzbPrev addr resp p = 0 ∨ stepBitValue lzbPrev addr resp p = 1 ∨
      stepBitValue lzbPrev addr resp p = (addr.getD (p / 8) 0) &&& (1 <<< (p % 8)) := by
  unfold stepBitValue chooseBit
  split
  · split
    · exact Or.inr (Or.inl rfl)
    · split
      · exact Or.inr (Or.inr rfl)
      · exact Or.inl rfl
  · split
    · exact Or.inr (Or.inl rfl)
    · exact Or.inl rfl

lemma bitOf_writeAddrBit_preserved (addr : List Nat) (p q bv : Nat)
    (hlen : addr.length = 8) (hbytes : ∀ x ∈ addr, x < 256) (hp : p < 64) (hq : q < p)
    (hbv : bv = 0 ∨ bv = 1 ∨ bv = (addr.getD (p / 8) 0) &&& (1 <<< (p % 8))) :
    bitOf (writeAddrBit addr p bv) q = bitOf addr q := by
  by_cases hbyte : p / 8 = q / 8
  · -- same byte: the write only touches bit positions ≥ p % 8 of it
    have hmod : q % 8 < p % 8 := by omega
    have hplen : p / 8 < addr.length := by omega
    have hb256 : addr.getD (p / 8) 0 < 256 := getD_lt addr _ hbytes
    unfold bitOf writeAddrBit
    rw [← hbyte]
    by_cases hz : bv = 0
    · rw [if_pos hz, getD_set_self _ _ _ hplen, testBit_clearBit _ _ _ (by omega) (by omega)]
      have : decide (q % 8 ≠ p % 8) = true := by simp; omega
      rw [this, Bool.true_and]
    · rw [if_neg hz, getD_set_self _ _ _ hplen]
      rcases hbv with h1 | h1 | h1
      · exact absurd h1 hz
      · rw [h1, testBit_setBit _ _ _ (by omega)]
        have : decide (q % 8 = p % 8) = false := by simp; omega
        rw [this, Bool.false_or]
      · rw [h1]
        rw [h1] at hz
        rw [testBit_setBit_buggy _ _ _ (by omega) hz]
        have : decide (q % 8 = 2 * (p % 8)) = false := by simp; omega
        rw [this, Bool.false_or]
  · -- different byte: untouched
    unfold bitOf writeAddrBit
    split <;> rw [getD_set_ne _ _ _ _ hbyte]

lemma bitOf_writeAddrBit_self (addr : List Nat) (p bv : Nat)
    (hlen : addr.length = 8) (hbytes : ∀ x ∈ addr, x < 256) (hp : p < 64)
    (hbv : bv = 0 ∨ bv = 1 ∨ bv = (addr.getD (p / 8) 0) &&& (1 <<< (p % 8))) :
    bitOf (writeAddrBit addr p bv) p = (bv != 0) := by
  have hplen : p / 8 < addr.length := by omega
  have hb256 : addr.getD (p / 8) 0 < 256 := getD_lt addr _ hbytes
  unfold bitOf writeAddrBit
  by_cases hz : bv = 0
  · subst hz
    rw [if_pos rfl, getD_set_self _ _ _ hplen, testBit_clearBit _ _ _ (by omega) (by omega)]
    simp
  · rw [if_neg hz, getD_set_self _ _ _ hplen]
    rcases hbv with h1 | h1 | h1
    · exact absurd h1 hz
    · subst h1
      rw [testBit_setBit _ _ _ (by omega)]
      simp [bne, hz]
    · rw [h1]
      rw [h1] at hz
      rw [testBit_setBit_buggy _ _ _ (by omega) hz]
      have hb : (addr.getD (p / 8) 0).testBit (p % 8) = true :=
        (and_shift_ne_zero_iff _ _).1 hz
      simp only [List.getD, List.get?_eq_getElem?] at hb hz
      simp [hb, hz, bne_iff_ne]

end DS2438
namespace DS2438

lemma searchLoop_ok_spec (lzbPrev : Int) :
    ∀ rem p addr llzb (resp : List Nat) aF lF evts,
    addr.length = 8 → (∀ x ∈ addr, x < 256) → p + rem ≤ 64 →
    searchLoop lzbPrev rem p addr llzb resp = .ok (aF, lF, evts) →
    aF.length = 8 ∧ (∀ x ∈ aF, x < 256) ∧ evts.length = rem ∧
    (∀ q, q < p → bitOf aF q = bitOf addr q) ∧
    (∀ j, j < rem → bitOf aF (p + j) = (evts.getD j default).chosen) := by
  intro rem
  induction rem with
  | zero =>
    intro p addr llzb resp aF lF evts hlen hbytes hle hok
    simp only [searchLoop, Except.ok.injEq, Prod.mk.injEq] at hok
    obtain ⟨rfl, -, rfl⟩ := hok
    exact ⟨hlen, hbytes, rfl, fun q _ => rfl, fun j hj => by omega⟩
  | succ rem ih =>
    intro p addr llzb resp aF lF evts hlen hbytes hle hok
    simp only [searchLoop] at hok
    by_cases hfault : ((busReading resp p).1 && (busReading resp p).2) = true
    · rw [if_pos hfault] at hok
      exact absurd hok (by simp)
    · rw [if_neg hfault] at hok
      cases hrec : searchLoop lzbPrev rem (p + 1)
          (writeAddrBit addr p (stepBitValue lzbPrev addr resp p))
          (stepLlzb llzb lzbPrev addr resp p)
          (respFilter resp p (stepBitValue lzbPrev addr resp p)) with
      | error a =>
        rw [hrec] at hok
        exact absurd hok (by simp)
      | ok trip =>
        obtain ⟨aF', lF', evts'⟩ := trip
        rw [hrec] at hok
        simp only [Except.ok.injEq, Prod.mk.injEq] at hok
        obtain ⟨rfl, rfl, rfl⟩ := hok
        have hbv := stepBitValue_cases lzbPrev addr resp p
        have ihh := ih (p + 1) _ _ _ aF' lF' evts'
          (by rw [writeAddrBit_length]; exact hlen)
          (writeAddrBit_bytes_lt _ _ _ hbytes) (by omega) hrec
        refine ⟨ihh.1, ihh.2.1, by simp [ihh.2.2.1], ?_, ?_⟩
        · intro q hq
          rw [ihh.2.2.2.1 q (by omega)]
          exact bitOf_writeAddrBit_preserved addr p q _ hlen hbytes (by omega) hq hbv
        · intro j hj
          cases j with
          | zero =>
            have h0 : bitOf aF' p
                = bitOf (writeAddrBit addr p (stepBitValue lzbPrev addr resp p)) p :=
              ihh.2.2.2.1 p (by omega)
            rw [Nat.add_zero, h0,
              bitOf_writeAddrBit_self addr p _ hlen hbytes (by omega) hbv]
            rfl
          | succ j =>
            have hh := ihh.2.2.2.2 j (by omega)
            rw [show p + (j + 1) = (p + 1) + j by omega]
            simpa using hh

lemma searchLoop_llzb (lzbPrev : Int) :
    ∀ rem p addr llzb (resp : List Nat) aF lF evts,
    searchLoop lzbPrev rem p addr llzb resp = .ok (aF, lF, evts) →
    lF = (match lastCZ evts with
          | none => llzb
          | some k => ((p + k : Nat) : Int)) := by
  intro rem
  induction rem with
  | zero =>
    intro p addr llzb resp aF lF evts hok
    simp only [searchLoop, Except.ok.injEq, Prod.mk.injEq] at hok
    obtain ⟨-, rfl, rfl⟩ := hok
    rfl
  | succ rem ih =>
    intro p addr llzb resp aF lF evts hok
    simp only [searchLoop] at hok
    by_cases hfault : ((busReading resp p).1 && (busReading resp p).2) = true
    · rw [if_pos hfault] at hok
      exact absurd hok (by simp)
    · rw [if_neg hfault] at hok
      cases hrec : searchLoop lzbPrev rem (p + 1)
          (writeAddrBit addr p (stepBitValue lzbPrev addr resp p))
          (stepLlzb llzb lzbPrev addr resp p)
          (respFilter resp p (stepBitValue lzbPrev addr resp p)) with
      | error a =>
        rw [hrec] at hok
        exact absurd hok (by simp)
      | ok trip =>
        obtain ⟨aF', lF', evts'⟩ := trip
        rw [hrec] at hok
        simp only [Except.ok.injEq, Prod.mk.injEq] at hok
        obtain ⟨rfl, rfl, rfl⟩ := hok
        have ihh := ih (p + 1) _ _ _ aF' lF' evts' hrec
        unfold lastCZ
        cases hcz : lastCZ evts' with
        | some k =>
          rw [hcz] at ihh
          simp only [ihh]
          have : ((p + 1 + k : Nat) : Int) = ((p + (k + 1) : Nat) : Int) := by
            congr 1
            omega
          simpa using this
        | none =>
          rw [hcz] at ihh
          simp only [ihh]
          unfold stepLlzb stepEvent isConflictZero
          by_cases hcond : (stepConflict resp p
              && (stepBitValue lzbPrev addr resp p == 0)) = true
          · rw [if_pos hcond]
            have hcond' : (stepConflict resp p
                && !(stepBitValue lzbPrev addr resp p != 0)) = true := by
              simpa [bne] using hcond
            rw [if_pos hcond']
            simp
          · rw [if_neg hcond]
            have hcond' : ¬(stepConflict resp p
                && !(stepBitValue lzbPrev addr resp p != 0)) = true := by
              simpa [bne] using hcond
            rw [if_neg hcond']

end DS2438
namespace DS2438

lemma lastCZ_none_spec :
    ∀ evts, lastCZ evts = none →
      ∀ j, j < evts.length → isConflictZero (evts.getD j default) = false := by
  intro evts
  induction evts with
  | nil =>
    intro _ j hj
    simp at hj
  | cons e rest ih =>
    intro h j hj
    unfold lastCZ at h
    cases hcz : lastCZ rest with
    | some k =>
      rw [hcz] at h
      simp at h
    | none =>
      rw [hcz] at h
      by_cases hce : isConflictZero e = true
      · rw [if_pos hce] at h
        simp at h
      · cases j with
        | zero => simpa using hce
        | succ j => exact ih hcz j (by simpa using hj)

lemma lastCZ_some_spec :
    ∀ evts k, lastCZ evts = some k →
      k < evts.length ∧ isConflictZero (evts.getD k default) = true ∧
      ∀ j, k < j → j < evts.length → isConflictZero (evts.getD j default) = false := by
  intro evts
  induction evts with
  | nil =>
    intro k h
    simp [lastCZ] at h
  | cons e rest ih =>
    intro k h
    unfold lastCZ at h
    cases hcz : lastCZ rest with
    | some kr =>
      rw [hcz] at h
      obtain rfl : kr + 1 = k := by simpa using h
      obtain ⟨h1, h2, h3⟩ := ih kr hcz
      refine ⟨by simp; omega, by simpa using h2, ?_⟩
      intro j hj hjl
      cases j with
      | zero => omega
      | succ j => exact h3 j (by omega) (by simpa using hjl)
    | none =>
      rw [hcz] at h
      by_cases hce : isConflictZero e = true
      · rw [if_pos hce] at h
        obtain rfl : 0 = k := by simpa using h
        refine ⟨by simp, by simpa using hce, ?_⟩
        intro j hj hjl
        cases j with
        | zero => omega
        | succ j => exact lastCZ_none_spec rest hcz j (by simpa using hjl)
      · rw [if_neg hce] at h
        simp at h

lemma searchLoop_singleton (lzbPrev : Int) (a : Nat) :
    ∀ rem p addr llzb, ∃ aF evts,
      searchLoop lzbPrev rem p addr llzb [a] = .ok (aF, llzb, evts) := by
  intro rem
  induction rem with
  | zero =>
    intro p addr llzb
    exact ⟨addr, [], rfl⟩
  | succ rem ih =>
    intro p addr llzb
    have hbus : busReading [a] p = (a.testBit p, !a.testBit p) := by
      simp [busReading]
    have hconf : stepConflict [a] p = false := by
      unfold stepConflict
      rw [hbus]
      cases a.testBit p <;> rfl
    have hllzb : stepLlzb llzb lzbPrev addr [a] p = llzb := by
      unfold stepLlzb
      rw [hconf]
      rfl
    have hresp : respFilter [a] p (stepBitValue lzbPrev addr [a] p) = [a] := by
      unfold respFilter stepBitValue
      rw [hconf]
      cases htb : a.testBit p <;> simp [busReading, htb]
    have hfault : ((busReading [a] p).1 && (busReading [a] p).2) = false := by
      rw [hbus]
      cases a.testBit p <;> rfl
    obtain ⟨aF, evts, hrec⟩ :=
      ih (p + 1) (writeAddrBit addr p (stepBitValue lzbPrev addr [a] p)) llzb
    refine ⟨aF, stepEvent lzbPrev addr [a] p :: evts, ?_⟩
    simp only [searchLoop, hfault, Bool.false_eq_true, if_false]
    rw [hllzb, hresp, hrec]

end DS2438
namespace DS2438

lemma searchLoop_length (lzbPrev : Int) :
    ∀ rem p addr llzb (resp : List Nat),
      (∀ aF lF evts,
        searchLoop lzbPrev rem p addr llzb resp = .ok (aF, lF, evts) →
        aF.length = addr.length) ∧
      (∀ a, searchLoop lzbPrev rem p addr llzb resp = .error a →
        a.length = addr.length) := by
  intro rem
  induction rem with
  | zero =>
    intro p addr llzb resp
    constructor
    · intro aF lF evts hok
      simp only [searchLoop, Except.ok.injEq, Prod.mk.injEq] at hok
      rw [← hok.1]
    · intro a herr
      simp [searchLoop] at herr
  | succ rem ih =>
    intro p addr llzb resp
    constructor <;> intro aF <;> try intro lF evts
    all_goals intro hok
    all_goals simp only [searchLoop] at hok
    all_goals by_cases hfault : ((busReading resp p).1 && (busReading resp p).2) = true
    · rw [if_pos hfault] at hok
      exact absurd hok (by simp)
    · rw [if_neg hfault] at hok
      cases hrec : searchLoop lzbPrev rem (p + 1)
          (writeAddrBit addr p (stepBitValue lzbPrev addr resp p))
          (stepLlzb llzb lzbPrev addr resp p)
          (respFilter resp p (stepBitValue lzbPrev addr resp p)) with
      | error a =>
        rw [hrec] at hok
        exact absurd hok (by simp)
      | ok trip =>
        obtain ⟨aF', lF', evts'⟩ := trip
        rw [hrec] at hok
        simp only [Except.ok.injEq, Prod.mk.injEq] at hok
        obtain ⟨rfl, rfl, rfl⟩ := hok
        have := (ih (p + 1) (writeAddrBit addr p (stepBitValue lzbPrev addr resp p))
          (stepLlzb llzb lzbPrev addr resp p)
          (respFilter resp p (stepBitValue lzbPrev addr resp p))).1 aF' lF' evts' hrec
        rw [this, writeAddrBit_length]
    · rw [if_pos hfault] at hok
      simp only [Except.error.injEq] at hok
      rw [← hok]
    · rw [if_neg hfault] at hok
      cases hrec : searchLoop lzbPrev rem (p + 1)
          (writeAddrBit addr p (stepBitValue lzbPrev addr resp p))
          (stepLlzb llzb lzbPrev addr resp p)
          (respFilter resp p (stepBitValue lzbPrev addr resp p)) with
      | error a =>
        rw [hrec] at hok
        simp only [Except.error.injEq] at hok
        subst hok
        have := (ih (p + 1) (writeAddrBit addr p (stepBitValue lzbPrev addr resp p))
          (stepLlzb llzb lzbPrev addr resp p)
          (respFilter resp p (stepBitValue lzbPrev addr resp p))).2 a hrec
        rw [this, writeAddrBit_length]
      | ok trip =>
        obtain ⟨aF', lF', evts'⟩ := trip
        rw [hrec] at hok
        exact absurd hok (by simp)

lemma search_next_address_length (devices : List Nat) (st : SearchState)
    (h : st.address.length = 8) :
    ((_search_next devices st).2).address.length = 8 := by
  unfold _search_next
  cases hres : searchLoop st.lastZeroBranch 64 0 st.address (-1) devices with
  | error a =>
    have hl := (searchLoop_length st.lastZeroBranch 64 0 st.address (-1) devices).2 a hres
    simpa using hl.trans h
  | ok trip =>
    obtain ⟨aF, lF, evts⟩ := trip
    have hl := (searchLoop_length st.lastZeroBranch 64 0 st.address (-1) devices).1
      aF lF evts hres
    have h8 : aF.length = 8 := hl.trans h
    by_cases hlf : lF = -1 <;> simp [hlf, h8]

lemma onewire_search_address_length (presence : Bool) (devices : List Nat)
    (st : SearchState) (h : st.address.length = 8) :
    ((onewire_search presence devices st).2.1).address.length = 8 := by
  unfold onewire_search _search_devices
  split
  · exact h
  · split
    · exact h
    · exact search_next_address_length devices st h

end DS2438
namespace DS2438

lemma ds2438_search_loop_spec (presence : Bool) (devices : List Nat) (len : Nat)
    (hlen : len < 2048) :
    ∀ fuel st i codes ws,
      st.address.length = 8 →
      8 * i ≤ len →
      i = codes.length →
      (∀ c ∈ codes, c.length = 8 ∧ onewire_check_rom_crc c = true) →
      (ds2438_search_loop presence devices len fuel st i codes ws).1
        = (ds2438_search_loop presence devices len fuel st i codes ws).2.1.length ∧
      8 * (ds2438_search_loop presence devices len fuel st i codes ws).1 ≤ len ∧
      (∀ c ∈ (ds2438_search_loop presence devices len fuel st i codes ws).2.1,
        c.length = 8 ∧ onewire_check_rom_crc c = true) := by
  intro fuel
  induction fuel with
  | zero =>
    intro st i codes ws hst hcap hi hcodes
    exact ⟨hi, hcap, hcodes⟩
  | succ fuel ih =>
    intro st i codes ws hst hcap hi hcodes
    simp only [ds2438_search_loop]
    by_cases hcond : ((onewire_search presence devices st).1
        && decide (8 * (i + 1) ≤ len)) = true
    · rw [if_pos hcond]
      have hcap' : 8 * (i + 1) ≤ len := by
        rw [Bool.and_eq_true] at hcond
        exact of_decide_eq_true hcond.2
      -- the capacity test keeps the uint8_t counter from wrapping
      have hnowrap : (i + 1) % 256 = i + 1 := Nat.mod_eq_of_lt (by omega)
      have hst' : ((onewire_search presence devices st).2.1).address.length = 8 :=
        onewire_search_address_length presence devices st hst
      by_cases hcrc :
          onewire_check_rom_crc ((onewire_search presence devices st).2.1).address = true
      · rw [if_pos hcrc, hnowrap]
        exact ih _ (i + 1) _ _ hst' hcap'
          (by simp [hi])
          (by
            intro c hc
            rcases List.mem_append.1 hc with hc | hc
            · exact hcodes c hc
            · rw [List.mem_singleton.1 hc]
              exact ⟨hst', hcrc⟩)
      · rw [if_neg hcrc]
        exact ih _ i _ _ hst' hcap hi hcodes
    · rw [if_neg hcond]
      exact ⟨hi, hcap, hcodes⟩

end DS2438

/-! ## Claim theorems -/

namespace DS2438

set_option maxRecDepth 40000

/-- Claim C9: for every byte sequence, appending its CRC-8 yields a
sequence that passes validation (round trip); and for every sequence that
passes validation (last byte equals `crc8` of the preceding bytes),
flipping any single bit of any byte yields a sequence that fails
validation. -/
theorem c9_crc8_roundtrip_and_single_bit_detection :
    (∀ s : List Nat, crc_check (s ++ [crc8 s]) = true) ∧
    (∀ s i b, i < s.length → b < 8 → crc_check s = true →
      crc_check (flipBit s i b) = false) := by
  constructor
  · intro s
    unfold crc_check
    rw [List.getLast?_concat, List.dropLast_concat]
    simp
  · intro s i b hi hb hv
    rcases List.eq_nil_or_concat s with rfl | ⟨data, c, rfl⟩
    · simp at hi
    · simp only [List.concat_eq_append] at hv hi ⊢
      unfold crc_check at hv
      rw [List.getLast?_concat, List.dropLast_concat] at hv
      have hc : c = crc8 data := by simpa using hv
      have he0 : (1 <<< b) ≠ 0 := by
        rw [Nat.one_shiftLeft]
        positivity
      have heb : (1 <<< b) < 256 := by
        rw [Nat.one_shiftLeft]
        calc 2 ^ b < 2 ^ 8 := Nat.pow_lt_pow_right (by norm_num) hb
        _ = 256 := by norm_num
      have hi' : i < data.length ∨ i = data.length := by
        simp only [List.length_append, List.length_cons, List.length_nil] at hi
        omega
      rcases hi' with hlt | heq
      · unfold flipBit
        rw [getD_append_lt hlt, set_append_lt hlt]
        unfold crc_check
        rw [List.getLast?_concat, List.dropLast_concat]
        simp only [beq_eq_false_iff_ne, ne_eq, Option.some.injEq]
        rw [hc]
        exact fun h => (crc8_set_ne data i 0 (1 <<< b) hlt he0 heb) h.symm
      · unfold flipBit
        subst heq
        rw [getD_append_len, set_append_len]
        unfold crc_check
        rw [List.getLast?_concat, List.dropLast_concat]
        simp only [beq_eq_false_iff_ne, ne_eq, Option.some.injEq]
        rw [← hc]
        exact xor_ne_self c (1 <<< b) he0

/-- Witness for C9 at the concrete sequence `[0x12, 0x34]` and flip of
bit 3 of byte 0. -/
theorem c9_crc8_roundtrip_and_single_bit_detection_witness :
    crc_check ([0x12, 0x34] ++ [crc8 [0x12, 0x34]]) = true ∧
    crc_check (flipBit ([0x12, 0x34] ++ [crc8 [0x12, 0x34]]) 0 3) = false :=
  ⟨c9_crc8_roundtrip_and_single_bit_detection.1 [0x12, 0x34],
   c9_crc8_roundtrip_and_single_bit_detection.2
     ([0x12, 0x34] ++ [crc8 [0x12, 0x34]]) 0 3 (by decide) (by decide) (by decide)⟩

/-- Claim C1 (code bug evaluation): on the bus holding the four distinct
64-bit addresses `{0x0, 0x2, 0x6, 0xA}`, successive `onewire_search`
calls (each reusing the mutated state) return `true` only three times,
yielding addresses 0, 2 and 6, set `done` on the third call, and never
yield address `0xA` — contradicting the claim that all N addresses are
yielded exactly once.  The cause is the 8-bit truncated
`address[byteIndex] |= (bitValue << bitIndex)` write at ds2438.c line
277: in the replay branch `bitValue` is already the mask
`1 << bitIndex`, so a spurious bit is ORed into position `2*bitIndex`
and a later replay read picks up the corrupted bit. -/
theorem c1_enumeration_misses_fourth_device :
    searchSeq true [0, 2, 6, 10] 1 = (true, ⟨1, false, [0, 0, 0, 0, 0, 0, 0, 0]⟩) ∧
    searchSeq true [0, 2, 6, 10] 2 = (true, ⟨3, false, [2, 0, 0, 0, 0, 0, 0, 0]⟩) ∧
    searchSeq true [0, 2, 6, 10] 3 = (true, ⟨3, true, [6, 0, 0, 0, 0, 0, 0, 0]⟩) ∧
    (searchSeq true [0, 2, 6, 10] 4).1 = false ∧
    ∀ n, n ≤ 4 →
      (searchSeq true [0, 2, 6, 10] n).2.address ≠ [10, 0, 0, 0, 0, 0, 0, 0] := by
  decide

/-- Claim C2 (code bug evaluation): on the bus `{0x0, 0x2, 0x6, 0xA}`,
after two passes the state holds address 2 with `lastZeroBranch = 3`;
in the third pass, position 2 is ambiguous and lies below
`lastZeroBranch`, yet it is resolved to 1 even though the previous
address has bit 2 equal to 0 — the replay branch reads the in-pass
buffer, which was corrupted by the truncated OR-write of position 1. -/
theorem c2_replay_bit_diverges_from_previous_address :
    (searchSeq true [0, 2, 6, 10] 2).2 = ⟨3, false, [2, 0, 0, 0, 0, 0, 0, 0]⟩ ∧
    ((2 : Int) < 3) ∧
    bitOf [2, 0, 0, 0, 0, 0, 0, 0] 2 = false ∧
    (passEvents 3 [2, 0, 0, 0, 0, 0, 0, 0] [0, 2, 6, 10]).getD 2 default
      = ⟨true, true⟩ := by
  decide

/-- Claim C3: when a search pass completes all 64 positions, if no
ambiguous bit was resolved to 0 the `done` flag is set and
`lastZeroBranch` is unchanged; otherwise `lastZeroBranch` is set to the
highest-numbered position where an ambiguous bit was resolved to 0 and
`done` is unchanged; and on a bus with exactly one device a single
search step returns `true` with `done` set immediately. -/
theorem c3_pass_end_state (devices : List Nat) (st : SearchState) (aF : List Nat)
    (lF : Int) (evts : List SearchEvent)
    (h : searchLoop st.lastZeroBranch 64 0 st.address (-1) devices = .ok (aF, lF, evts)) :
    (_search_next devices st).1 = true ∧
    (lastCZ evts = none →
      (_search_next devices st).2.done = true ∧
      (_search_next devices st).2.lastZeroBranch = st.lastZeroBranch) ∧
    (∀ k, lastCZ evts = some k →
      (_search_next devices st).2.lastZeroBranch = (k : Int) ∧
      (_search_next devices st).2.done = st.done ∧
      isConflictZero (evts.getD k default) = true ∧
      ∀ j, k < j → j < evts.length → isConflictZero (evts.getD j default) = false) ∧
    (∀ a, devices = [a] →
      (_search_next devices st).2.done = true ∧
      (st.done = false →
        onewire_search true devices st = (true, (_search_next devices st).2, [0xF0]))) := by
  have hllzb := searchLoop_llzb st.lastZeroBranch 64 0 st.address (-1) devices aF lF evts h
  cases hcz : lastCZ evts with
  | none =>
    have hlF : lF = -1 := by rw [hllzb, hcz]
    subst hlF
    have hnext : _search_next devices st
        = (true, { st with address := aF, done := true }) := by
      unfold _search_next
      rw [h]
      simp
    refine ⟨by rw [hnext], fun _ => ⟨by rw [hnext], by rw [hnext]⟩, ?_, ?_⟩
    · intro k hk
      exact absurd hk.symm (Option.some_ne_none k)
    · intro a ha
      refine ⟨by rw [hnext], fun hdone => ?_⟩
      unfold onewire_search _search_devices
      rw [hdone]
      simp [hnext]
  | some k =>
    have hlF : lF = (k : Int) := by
      rw [hllzb, hcz]
      simp
    have hne : ¬(lF = -1) := by
      rw [hlF]
      omega
    have hnext : _search_next devices st
        = (true, { st with address := aF, lastZeroBranch := lF }) := by
      unfold _search_next
      rw [h]
      simp [hne]
    refine ⟨by rw [hnext], ?_, ?_, ?_⟩
    · intro hnone
      exact absurd hnone (Option.some_ne_none k)
    · intro k' hk'
      obtain rfl : k = k' := by simpa using hk'
      obtain ⟨h1, h2, h3⟩ := lastCZ_some_spec evts k hcz
      exact ⟨by rw [hnext, hlF], by rw [hnext], h2, h3⟩
    · intro a ha
      subst ha
      obtain ⟨aF', evts', hs⟩ :=
        searchLoop_singleton st.lastZeroBranch a 64 0 st.address (-1)
      rw [h] at hs
      simp only [Except.ok.injEq, Prod.mk.injEq] at hs
      exact absurd hs.2.1 hne

/-- Witness for C3: a one-device bus `[5]` from the fresh state — the
single pass sets `done` and the search call reports success. -/
theorem c3_pass_end_state_witness :
    (_search_next [5] onewire_search_init).2.done = true ∧
    (onewire_search true [5] onewire_search_init).1 = true := by
  have h : searchLoop onewire_search_init.lastZeroBranch 64 0
      onewire_search_init.address (-1) [5]
      = .ok ([5, 0, 0, 0, 0, 0, 0, 0], -1,
          (List.range 64).map fun p => ⟨false, Nat.testBit 5 p⟩) := by
    rfl
  have hc := c3_pass_end_state [5] onewire_search_init _ _ _ h
  have hs := hc.2.2.2 5 rfl
  exact ⟨hs.1, by rw [hs.2 rfl]⟩

/-- Claim C4: a search pass that returns `true` leaves, for every bit
position `p < 64`, bit `p % 8` of address byte `p / 8` equal to the bit
value chosen at position `p`, with no spurious value surviving at any of
the 64 positions from writes made for other positions. -/
theorem c4_address_bits_match_chosen (devices : List Nat) (st : SearchState)
    (aF : List Nat) (lF : Int) (evts : List SearchEvent)
    (hlen : st.address.length = 8) (hbytes : ∀ x ∈ st.address, x < 256)
    (h : searchLoop st.lastZeroBranch 64 0 st.address (-1) devices = .ok (aF, lF, evts)) :
    (_search_next devices st).1 = true ∧
    (_search_next devices st).2.address = aF ∧
    aF.length = 8 ∧
    ∀ p, p < 64 → bitOf aF p = (evts.getD p default).chosen := by
  obtain ⟨h1, h2, h3, h4, h5⟩ := searchLoop_ok_spec st.lastZeroBranch 64 0 st.address
    (-1) devices aF lF evts hlen hbytes (by omega) h
  refine ⟨?_, ?_, h1, ?_⟩
  · unfold _search_next
    rw [h]
    by_cases hlf : lF = -1 <;> simp [hlf]
  · unfold _search_next
    rw [h]
    by_cases hlf : lF = -1 <;> simp [hlf]
  · intro p hp
    simpa using h5 p hp

/-- Witness for C4 at the one-device bus `[5]` from the fresh state. -/
theorem c4_address_bits_match_chosen_witness :
    (_search_next [5] onewire_search_init).1 = true := by
  have h : searchLoop onewire_search_init.lastZeroBranch 64 0
      onewire_search_init.address (-1) [5]
      = .ok ([5, 0, 0, 0, 0, 0, 0, 0], -1,
          (List.range 64).map fun p => ⟨false, Nat.testBit 5 p⟩) := by
    rfl
  exact (c4_address_bits_match_chosen [5] onewire_search_init _ _ _
    (by decide) (by decide) h).1

/-- Claim C5: `ds2438_search` records only 8-byte ROM codes whose byte 7
equals the CRC-8 of bytes 0-6, reports in `*found` exactly the number of
codes written, and never exceeds the caller's capacity: 8 times the
reported count is at most `len`.  The hypothesis `len < 2048` excludes
the one capacity value at which the C `uint8_t` code counter can wrap:
below it the capacity test `8 * (i + 1) ≤ len` forces `i + 1 ≤ 255`, so
the counter never wraps (`found < 256` is part of the conclusion) and the
reported count is the true number of codes written. -/
theorem c5_search_buffer_contract (presence : Bool) (devices : List Nat)
    (len fuel found : Nat) (codes : List (List Nat)) (ws : List Nat)
    (hlen : len < 2048)
    (h : ds2438_search presence devices len fuel = (found, codes, ws)) :
    found = codes.length ∧ found < 256 ∧ 8 * found ≤ len ∧
    ∀ c ∈ codes, c.length = 8 ∧ onewire_check_rom_crc c = true := by
  have hspec := ds2438_search_loop_spec presence devices len hlen fuel
    onewire_search_init 0 [] [] (by simp [onewire_search_init]) (by omega) rfl (by simp)
  unfold ds2438_search at h
  rw [h] at hspec
  exact ⟨hspec.1, by omega, hspec.2.1, hspec.2.2⟩

/-- Witness for C5: one device with address 0 (its all-zero ROM code has
a valid CRC), capacity 16 bytes. -/
theorem c5_search_buffer_contract_witness :
    8 * 1 ≤ 16 ∧ onewire_check_rom_crc [0, 0, 0, 0, 0, 0, 0, 0] = true := by
  have h := c5_search_buffer_contract true [0] 16 3 1 [[0, 0, 0, 0, 0, 0, 0, 0]] [0xF0]
    (by norm_num) (by decide)
  exact ⟨h.2.2.1, (h.2.2.2 [0, 0, 0, 0, 0, 0, 0, 0] (by decide)).2⟩

/-- Claim C6: when no reset observes a presence pulse, `ds2438_search`
reports zero found devices and writes no command byte, a search step
fails leaving the search state untouched and writing nothing, and
`ds2438_measure` returns `false` with no output and no command byte
written. -/
theorem c6_no_presence_reports_nothing (env : Env) (devices : List Nat)
    (st : SearchState) (len fuel : Nat) (hres : ∀ i, env.resets i = false) :
    ds2438_search false devices len fuel = (0, [], []) ∧
    onewire_search false devices st = (false, st, []) ∧
    ds2438_measure env = (false, none, []) := by
  refine ⟨?_, ?_, ?_⟩
  · cases fuel with
    | zero => rfl
    | succ fuel =>
      have hsearch : onewire_search false devices onewire_search_init
          = (false, onewire_search_init, []) := by
        simp [onewire_search, _search_devices, onewire_search_init]
      simp [ds2438_search, ds2438_search_loop, hsearch]
  · cases hd : st.done <;> simp [onewire_search, _search_devices, hd]
  · simp [ds2438_measure, hres 0]

/-- Witness for C6 at a concrete no-presence oracle and a concrete bus. -/
theorem c6_no_presence_reports_nothing_witness :
    ds2438_search false [3] 16 3 = (0, [], []) ∧
    ds2438_measure envNoPresence = (false, none, []) := by
  have h := c6_no_presence_reports_nothing envNoPresence [3] onewire_search_init 16 3
    (fun _ => rfl)
  exact ⟨h.1, h.2.2⟩

/-- Claim C7: `ds2438_read_slave` returns `DeviceNotFound` exactly when
one of its two resets fails to observe presence, in which case it aborts
before reading any scratchpad byte (the read cursor does not move);
otherwise it reads 9 bytes and returns `CrcCheckFailed` exactly when the
CRC-8 of the first 8 bytes differs from byte 8, and 0 when they match. -/
theorem c7_read_slave_status (env : Env) (r n page code : Nat)
    (obuf : Option (List Nat)) (r' n' : Nat) (ws : List Nat)
    (h : ds2438_read_slave env r n page = (code, obuf, r', n', ws)) :
    (code = kDS2438_DeviceNotFound ↔
      (env.resets r = false ∨ env.resets (r + 1) = false)) ∧
    ((env.resets r = false ∨ env.resets (r + 1) = false) → obuf = none ∧ n' = n) ∧
    (env.resets r = true → env.resets (r + 1) = true →
      obuf = some (readBuf env n) ∧ n' = n + 9 ∧
      (code = kDS2438_CrcCheckFailed ↔
        crc8 ((readBuf env n).take 8) ≠ (readBuf env n).getD 8 0) ∧
      (code = 0 ↔ crc8 ((readBuf env n).take 8) = (readBuf env n).getD 8 0)) := by
  unfold ds2438_read_slave at h
  by_cases h1 : env.resets r = false
  · rw [if_pos h1] at h
    simp only [Prod.mk.injEq] at h
    obtain ⟨rfl, rfl, rfl, rfl, rfl⟩ := h
    refine ⟨by simp [h1], fun _ => ⟨rfl, rfl⟩, ?_⟩
    intro hr _
    rw [hr] at h1
    exact absurd h1 (by simp)
  · have h1' : env.resets r = true := by revert h1; cases env.resets r <;> simp
    rw [if_neg h1] at h
    by_cases h2 : env.resets (r + 1) = false
    · rw [if_pos h2] at h
      simp only [Prod.mk.injEq] at h
      obtain ⟨rfl, rfl, rfl, rfl, rfl⟩ := h
      refine ⟨by simp [h2], fun _ => ⟨rfl, rfl⟩, ?_⟩
      intro _ hr2
      rw [hr2] at h2
      exact absurd h2 (by simp)
    · have h2' : env.resets (r + 1) = true := by
        revert h2; cases env.resets (r + 1) <;> simp
      rw [if_neg h2] at h
      have hdnf : kDS2438_DeviceNotFound ≠ 0 := by decide
      have hcf : kDS2438_CrcCheckFailed ≠ kDS2438_DeviceNotFound := by decide
      by_cases h3 : (crc8 ((readBuf env n).take 8)
          != (readBuf env n).getD kScratchPad_CRC 0) = true
      · rw [if_pos h3] at h
        simp only [Prod.mk.injEq] at h
        obtain ⟨rfl, rfl, rfl, rfl, rfl⟩ := h
        rw [bne_iff_ne] at h3
        refine ⟨by simp [h1', h2', hcf], ?_, ?_⟩
        · intro hor
          rcases hor with hx | hx
          · rw [hx] at h1'; exact absurd h1' (by simp)
          · rw [hx] at h2'; exact absurd h2' (by simp)
        · intro _ _
          refine ⟨rfl, rfl, by simp [h3, kScratchPad_CRC] at h3 ⊢; exact h3, ?_⟩
          constructor
          · intro hc
            exact absurd hc (by decide)
          · intro hc
            exact absurd hc (by simpa [kScratchPad_CRC] using h3)
      · have h3' : crc8 ((readBuf env n).take 8)
            = (readBuf env n).getD kScratchPad_CRC 0 := by
          revert h3
          simp [bne_iff_ne]
        rw [if_neg h3] at h
        simp only [Prod.mk.injEq] at h
        obtain ⟨rfl, rfl, rfl, rfl, rfl⟩ := h
        refine ⟨by simp [h1', h2']; decide, ?_, ?_⟩
        · intro hor
          rcases hor with hx | hx
          · rw [hx] at h1'; exact absurd h1' (by simp)
          · rw [hx] at h2'; exact absurd h2' (by simp)
        · intro _ _
          refine ⟨rfl, rfl, ?_, ?_⟩
          · constructor
            · intro hc
              exact absurd hc (by decide)
            · intro hc
              exact absurd (by simpa [kScratchPad_CRC] using h3') hc
          · simp [h3', kScratchPad_CRC]

/-- Witness for C7: presence oracles all true, all-zero reads — the
status code 0 is not `DeviceNotFound`. -/
theorem c7_read_slave_status_witness :
    ((0 : Nat) = kDS2438_DeviceNotFound ↔
      (envAllZero.resets 0 = false ∨ envAllZero.resets 1 = false)) := by
  have h := c7_read_slave_status envAllZero 0 0 0 0 (some (readBuf envAllZero 0)) 2 9
    [0xCC, kRecallPage, 0, 0xCC, kReadScatchPad, 0] (by decide)
  exact h.1

/-- Claim C8: `ds2438_measure` yields a single boolean outcome; the
formatted output line is written exactly on the success path — on every
failing path the function returns `false` with the caller's output
untouched. -/
theorem c8_measure_output_iff_success (env : Env) :
    ((ds2438_measure env).1 = false ↔ (ds2438_measure env).2.1 = none) := by
  unfold ds2438_measure
  dsimp only
  by_cases h0 : env.resets 0 = false
  · rw [if_pos h0]
    simp
  rw [if_neg h0]
  by_cases h1 : env.resets 1 = false
  · rw [if_pos h1]
    simp
  rw [if_neg h1]
  by_cases h2 : env.resets 2 = false
  · rw [if_pos h2]
    simp
  rw [if_neg h2]
  by_cases h3 : (ds2438_read_slave env 3 0 0).1 = kDS2438_CrcCheckFailed
  · rw [if_pos h3]
    simp
  rw [if_neg h3]
  by_cases h4 : (ds2438_read_slave env 3 0 0).1 = kDS2438_DeviceNotFound
  · rw [if_pos h4]
    simp
  rw [if_neg h4]
  by_cases h5 : env.resets (ds2438_read_slave env 3 0 0).2.2.1 = false
  · rw [if_pos h5]
    simp
  rw [if_neg h5]
  by_cases h6 : env.resets ((ds2438_read_slave env 3 0 0).2.2.1 + 1) = false
  · rw [if_pos h6]
    simp
  rw [if_neg h6]
  by_cases h7 : env.resets ((ds2438_read_slave env 3 0 0).2.2.1 + 2) = false
  · rw [if_pos h7]
    simp
  rw [if_neg h7]
  by_cases h8 : (ds2438_read_slave env ((ds2438_read_slave env 3 0 0).2.2.1 + 3)
      (ds2438_read_slave env 3 0 0).2.2.2.1 0).1 = kDS2438_CrcCheckFailed
  · rw [if_pos h8]
    simp
  rw [if_neg h8]
  by_cases h9 : (ds2438_read_slave env ((ds2438_read_slave env 3 0 0).2.2.1 + 3)
      (ds2438_read_slave env 3 0 0).2.2.2.1 0).1 = kDS2438_DeviceNotFound
  · rw [if_pos h9]
    simp
  rw [if_neg h9]
  simp

/-- Claim C10 (code bug evaluation): with a scratchpad frame whose
temperature MSB is `0xFF` (-1 °C in the device's two's-complement
encoding, valid CRC), `ds2438_measure` succeeds and extracts the integer
temperature part as the unsigned byte 255 (`uint8_t temp_integer`,
ds2438.c line 442), not as the signed value -1 the spec describes. -/
theorem c10_temperature_msb_read_unsigned :
    (ds2438_measure envNegTemp).1 = true ∧
    (ds2438_measure envNegTemp).2.1 = some ⟨255, 0, 0, 0⟩ ∧
    specSignedTemp 0xFF = -1 ∧
    ((255 : Int) ≠ specSignedTemp 0xFF) := by
  decide

end DS2438
